import Mathlib

/-!
Verification development for the Solana token-creation relay backend.

The Go sources embedded here are `backend/stream.go` (log filtering and
event decoding pipeline), the websocket hub file (client registry,
broadcasting, per-connection read loop) and the generic decoding helpers
(`DecodeBase64`, `DecodeBorsh`).  Machine bytes are modelled as `Nat`
values below 256 in `List Nat`; Go strings that carry text are modelled
as `List Char` (all constants involved are ASCII, where byte-level and
character-level scanning agree); fallible Go functions return `GoResult`
so that a runtime panic is an explicit outcome rather than an implicit
one.
-/

/-- Bytes of a Go byte slice, each entry intended below 256. -/
abbrev Bytes := List Nat

/-- Result of a fallible Go computation: normal value, error return, or
runtime panic (for example an out-of-range slice expression). -/
inductive GoResult (α : Type) where
  | ok (val : α)
  | err (msg : String)
  | crash
deriving DecidableEq

/-- The 8-byte creation-event discriminator `creationDiscriminator` from
`backend/stream.go`. -/
def creationDiscriminator : Bytes := [27, 114, 169, 77, 222, 235, 99, 118]

/-- RawEvent from `backend/stream.go`: the Borsh-decoded creation record.
Field `mint` models the `solana.PublicKey` as its 32 raw bytes. -/
structure RawEvent where
  name : Bytes
  symbol : Bytes
  uri : Bytes
  mint : Bytes
deriving DecidableEq

/-- CreateEvent from `backend/stream.go`: the client-facing projection,
with the mint rendered as text. -/
structure CreateEvent where
  name : Bytes
  symbol : Bytes
  uri : Bytes
  mint : String
deriving DecidableEq

/-- Well-formedness of a `RawEvent` as produced by the Go type: string
lengths fit in a `uint32` and the public key is exactly 32 bytes. -/
def wfRawEvent (e : RawEvent) : Prop :=
  e.name.length < 2 ^ 32 ∧ e.symbol.length < 2 ^ 32 ∧
    e.uri.length < 2 ^ 32 ∧ e.mint.length = 32

/-! ### Borsh binary layout (models the gagliardetto/binary decoder used
by `DecodeBorsh`): a string is a little-endian `u32` length followed by
that many bytes, a public key is 32 raw bytes. -/

/-- Little-endian 4-byte encoding of a length, as written by the Borsh
encoder (`uint32` truncation is explicit via `% 256` digits). -/
def u32LE (n : Nat) : Bytes :=
  [n % 256, n / 256 % 256, n / 65536 % 256, n / 16777216 % 256]

/-- Read a little-endian `u32` from the front of a byte stream. -/
def readU32 : Bytes → Option (Nat × Bytes)
  | b0 :: b1 :: b2 :: b3 :: rest =>
      some (b0 + 256 * b1 + 65536 * b2 + 16777216 * b3, rest)
  | _ => none

/-- Read exactly `n` bytes from the front of a byte stream, failing when
fewer remain (the decoder errors on short input). -/
def readBytesN (n : Nat) (l : Bytes) : Option (Bytes × Bytes) :=
  if n ≤ l.length then some (l.take n, l.drop n) else none

/-- Read one Borsh string: length, then payload bytes. -/
def readStr (l : Bytes) : Option (Bytes × Bytes) :=
  match readU32 l with
  | none => none
  | some (n, rest) => readBytesN n rest

/-- Borsh decoding of `RawEvent`, field order name, symbol, uri, mint;
trailing bytes after the last field are ignored, as the Go decoder does. -/
def decodeRawEvent (l : Bytes) : Option RawEvent := do
  let (nm, r1) ← readStr l
  let (sy, r2) ← readStr r1
  let (ur, r3) ← readStr r2
  let (mt, _) ← readBytesN 32 r3
  pure ⟨nm, sy, ur, mt⟩

/-- Borsh encoding of one string field. -/
def borshStr (s : Bytes) : Bytes := u32LE s.length ++ s

/-- Borsh encoding of a `RawEvent` with the upstream layout: the fields
name, symbol, uri as length-prefixed strings, then the 32 mint bytes. -/
def borshEncodeRawEvent (e : RawEvent) : Bytes :=
  borshStr e.name ++ (borshStr e.symbol ++ (borshStr e.uri ++ e.mint))

/-! ### DecodeBase64 (generic decoder file), instantiated at `RawEvent`.
Go slice expressions are modelled by guarded operations that crash when
the index is out of range, so that absence of panics is provable rather
than assumed. -/

/-- Model of the Go slice expression `l[:k]`: panics when `k > len(l)`. -/
def goSliceTo (l : Bytes) (k : Nat) : Option Bytes :=
  if k ≤ l.length then some (l.take k) else none

/-- Model of the Go slice expression `l[k:]`: panics when `k > len(l)`. -/
def goSliceFrom (l : Bytes) (k : Nat) : Option Bytes :=
  if k ≤ l.length then some (l.drop k) else none

/-- DecodeBase64 from the generic decoder file, at type `RawEvent`:
length guard, discriminator comparison, then Borsh decoding of the
payload after the discriminator. -/
def DecodeBase64RawEvent (data disc : Bytes) : GoResult RawEvent :=
  if data.length < disc.length then
    .err "data too short for discriminator"
  else
    match goSliceTo data disc.length with
    | none => .crash
    | some front =>
      if front ≠ disc then
        .err "invalid discriminator"
      else
        match goSliceFrom data disc.length with
        | none => .crash
        | some payload =>
          match decodeRawEvent payload with
          | none => .err "failed to decode Borsh payload"
          | some e => .ok e

/-! ### Base64 decoding (models `encoding/base64` StdEncoding.DecodeString
from the Go standard library): 4-character quantums, mandatory `=`
padding in the final quantum only, carriage returns and newlines ignored,
any other character outside the alphabet rejected. -/

/-- Value of one standard-alphabet base64 character. -/
def b64Val (c : Char) : Option Nat :=
  let n := c.toNat
  if 65 ≤ n ∧ n ≤ 90 then some (n - 65)
  else if 97 ≤ n ∧ n ≤ 122 then some (n - 71)
  else if 48 ≤ n ∧ n ≤ 57 then some (n + 4)
  else if n = 43 then some 62
  else if n = 47 then some 63
  else none

/-- Decode a stream of base64 characters quantum by quantum.  Padding is
accepted only at the very end of the input, matching the Go decoder. -/
def b64Quantums : List Char → Option Bytes
  | [] => some []
  | c1 :: c2 :: c3 :: c4 :: rest =>
    match b64Val c1, b64Val c2 with
    | some v1, some v2 =>
      if c3 = '=' then
        if c4 = '=' ∧ rest = [] then some [v1 * 4 + v2 / 16] else none
      else
        match b64Val c3 with
        | some v3 =>
          if c4 = '=' then
            if rest = [] then some [v1 * 4 + v2 / 16, v2 % 16 * 16 + v3 / 4]
            else none
          else
            match b64Val c4 with
            | some v4 =>
              (b64Quantums rest).map
                (fun t => (v1 * 4 + v2 / 16) :: ((v2 % 16 * 16 + v3 / 4) ::
                  ((v3 % 4 * 64 + v4) :: t)))
            | none => none
        | none => none
    | _, _ => none
  | _ => none

/-- Base64 decoding of a text payload: strip newlines, then decode the
quantums. -/
def base64Decode (s : List Char) : Option Bytes :=
  b64Quantums (s.filter (fun c => c ≠ '\n' ∧ c ≠ '\r'))

/-! ### Base58 rendering (models btcutil base58 as used by
`solana.PublicKey.String`): leading zero bytes map to the digit `1`, the
rest of the bytes are read as one big-endian number written in base 58. -/

/-- The base58 alphabet. -/
def base58Digits : List Char :=
  "123456789ABCDEFGHJKLMNPQRSTUVWXYZabcdefghijkmnopqrstuvwxyz".data

/-- Digit character for a value below 58. -/
def base58Digit (n : Nat) : Char := base58Digits.getD n '?'

/-- Fuel-driven base-58 digit expansion, most significant digit first.
The fuel only has to dominate the digit count, which `n` itself does. -/
def natToB58Aux : Nat → Nat → List Char
  | 0, _ => []
  | fuel + 1, n =>
    if n = 0 then [] else natToB58Aux fuel (n / 58) ++ [base58Digit (n % 58)]

/-- Base-58 digits of a number, most significant first; 0 has none. -/
def natToB58 (n : Nat) : List Char := natToB58Aux n n

/-- Big-endian numeric value of a byte string. -/
def bytesToNat (l : Bytes) : Nat := l.foldl (fun acc b => acc * 256 + b) 0

/-- Count of leading zero bytes. -/
def countLeadZeros : Bytes → Nat
  | [] => 0
  | b :: rest => if b = 0 then countLeadZeros rest + 1 else 0

/-- Base58 text rendering of a byte string. -/
def base58Encode (l : Bytes) : String :=
  String.mk (List.replicate (countLeadZeros l) '1' ++ natToB58 (bytesToNat l))

/-! ### Log filtering and the per-line pipeline (`backend/stream.go`). -/

/-- The marker substring `logIdentifier` from `backend/stream.go`. -/
def logIdentifier : List Char := "G3KpTd7r".data

/-- The fixed prefix text `"Program data: "` from `backend/stream.go`,
named `programDataPfx` here. -/
def programDataPfx : List Char := "Program data: ".data

/-- Model of `strings.Contains`: the pattern occurs somewhere in the
text. -/
def strContains : List Char → List Char → Bool
  | [], pat => pat.isPrefixOf []
  | c :: rest, pat => pat.isPrefixOf (c :: rest) || strContains rest pat

/-- Model of `strings.Split(log, programDataPfx)`: cut the text at every
leftmost non-overlapping occurrence of the separator.  The accumulator
holds the characters of the current part; the fuel only has to dominate
the number of characters still to scan, which the text length does (every
step consumes at least one character), so the fuel-exhaustion arm is
unreachable from `splitPD`. -/
def splitPDFuel : Nat → List Char → List Char → List (List Char)
  | 0, s, acc => [acc ++ s]
  | fuel + 1, s, acc =>
    match s with
    | [] => [acc]
    | c :: rest =>
      if programDataPfx.isPrefixOf (c :: rest) then
        acc :: splitPDFuel fuel (List.drop programDataPfx.length (c :: rest)) []
      else
        splitPDFuel fuel rest (acc ++ [c])

/-- Split of a log line on the program-data separator. -/
def splitPD (log : List Char) : List (List Char) :=
  splitPDFuel log.length log []

/-- extractProgramData from `backend/stream.go`: split on the prefix and
return the second part, erroring when there are fewer than two parts. -/
def extractProgramData (log : List Char) : GoResult (List Char) :=
  match splitPD log with
  | _ :: p :: _ => .ok p
  | _ => .err "log does not contain program data"

/-- processLog from `backend/stream.go`, returning the list of
`CreateEvent` records produced for the line (zero or one).  The
`json.Marshal` step of the source cannot fail on this record type, and
broadcasting the marshalled bytes is modelled separately, so the
produced record list is the observable outcome of the function. -/
def processLog (log : List Char) : GoResult (List CreateEvent) :=
  if ¬ strContains log logIdentifier then .ok []
  else
    match extractProgramData log with
    | .crash => .crash
    | .err e => .err ("failed to extract program data: " ++ e)
    | .ok data =>
      match base64Decode data with
      | none => .err "failed to decode base64 data"
      | some decoded =>
        if ¬ creationDiscriminator.isPrefixOf decoded then .ok []
        else
          match DecodeBase64RawEvent decoded creationDiscriminator with
          | .crash => .crash
          | .err e => .err ("failed to decode event: " ++ e)
          | .ok ev =>
            .ok [{ name := ev.name, symbol := ev.symbol, uri := ev.uri,
                   mint := base58Encode ev.mint }]

/-! ### Reference definitions for the extraction claim, written from the
words of the spec rather than from the source, to be compared with
`extractProgramData`. -/

/-- Index of the first occurrence of `programDataPfx` in a text, if
any. -/
def findPDOcc : List Char → Option Nat
  | [] => if programDataPfx.isPrefixOf ([] : List Char) then some 0 else none
  | c :: rest =>
    if programDataPfx.isPrefixOf (c :: rest) then some 0
    else (findPDOcc rest).map (· + 1)

/-- Reading of the claim as stated: the payload is the entire remainder
of the line after the first occurrence of the prefix. -/
def specExtractAll (log : List Char) : Option (List Char) :=
  (findPDOcc log).map (fun i => log.drop (i + programDataPfx.length))

/-- Amended reading: the payload is the segment after the first
occurrence of the prefix, truncated at the next occurrence of the
prefix when one exists. -/
def specExtractSegment (log : List Char) : Option (List Char) :=
  (findPDOcc log).map (fun i =>
    let rest := log.drop (i + programDataPfx.length)
    match findPDOcc rest with
    | none => rest
    | some j => rest.take j)

/-! ### Client registry, read loop and broadcaster (websocket hub file).
The `xsync` map keyed by remote address is modelled as an association
list with unique keys; `Store` replaces in place, `Delete` removes the
key.  A connection is identified by its address id together with a
generation number distinguishing successive connections that reuse the
same address. -/

/-- ConnectedClients model: address id mapped to connection generation. -/
abbrev Registry := List (String × Nat)

/-- Model of `ConnectedClients.Store`: replace the entry in place when
the id is present, append it otherwise. -/
def storeR (id : String) (gen : Nat) : Registry → Registry
  | [] => [(id, gen)]
  | (i, g) :: rest =>
    if i = id then (id, gen) :: rest else (i, g) :: storeR id gen rest

/-- Model of `ConnectedClients.Delete`. -/
def removeR (id : String) : Registry → Registry
  | [] => []
  | (i, g) :: rest => if i = id then rest else (i, g) :: removeR id rest

/-- Model of `ConnectedClients.Load`. -/
def lookupR (id : String) : Registry → Option Nat
  | [] => none
  | (i, g) :: rest => if i = id then some g else lookupR id rest

/-- The ping keyword `pingMessage` from the hub file. -/
def pingMessage : List Char := "ping".data

/-- The pong literal `pongResponse` from the hub file. -/
def pongResponse : String := "\x7b\"message\":\"pong\"\x7d"

/-- One attempted write to one client connection. -/
structure Delivery where
  id : String
  gen : Nat
  payload : List Char
deriving DecidableEq

/-- sendMessageToAllClients from the hub file: snapshot the registry,
then spawn one write of the same message bytes per snapshot entry.  The
function performs no registry mutation. -/
def sendMessageToAllClients (message : List Char) (reg : Registry) :
    List Delivery :=
  reg.map (fun c => ⟨c.1, c.2, message⟩)

/-- Broadcast with per-client write outcomes supplied by an oracle
`writeOk` (true = the write succeeded).  A failed write is only logged
in the source, so the outcome decorates the attempt and nothing else. -/
def broadcastOutcomes (message : List Char) (reg : Registry)
    (writeOk : String → Nat → Bool) : List (Delivery × Bool) :=
  (sendMessageToAllClients message reg).map (fun d => (d, writeOk d.id d.gen))

/-- Full broadcast step: the registry afterwards, and the decorated
attempts.  `sendMessageToAllClients` never calls `Store` or `Delete`,
so the registry component is the input registry. -/
def broadcastStep (reg : Registry) (message : List Char)
    (writeOk : String → Nat → Bool) : Registry × List (Delivery × Bool) :=
  (reg, broadcastOutcomes message reg writeOk)

/-- Externally visible events of one connection handler
(`handleConnection`): registration after upgrade, one inbound frame, and
the terminal read error that ends the read loop. -/
inductive NetEvent where
  | connect (id : String) (gen : Nat)
  | frame (id : String) (gen : Nat) (msg : List Char)
  | readError (id : String) (gen : Nat)
deriving DecidableEq

/-- Effect of one connection event on the registry, together with the
writes it issues: `connect` stores the client, a frame containing the
ping keyword triggers a pong write and nothing else, and the read error
deletes the entry under the address id. -/
def step (reg : Registry) : NetEvent → Registry × List Delivery
  | .connect id gen => (storeR id gen reg, [])
  | .frame id gen msg =>
    (reg,
      if strContains msg pingMessage then [⟨id, gen, pongResponse.data⟩]
      else [])
  | .readError id _ => (removeR id reg, [])

/-- Registry component of `step`. -/
def stepReg (reg : Registry) (ev : NetEvent) : Registry := (step reg ev).1

/-- Registry reached from the empty initial map after a trace of
connection events. -/
def runTrace (tr : List NetEvent) : Registry := tr.foldl stepReg []

/-! ### Upstream reconnect loop (`listenToNewPairs` in
`backend/stream.go`).  `connectAndListen` can only return with an error:
the connect and subscribe phases return their failures, and the stream
phase loops until `Recv` fails.  The loop is driven here by the sequence
of cycle failures; each failure is followed by one constant sleep and a
fresh cycle. -/

/-- Failure that ends one connect-subscribe-stream cycle. -/
inductive UpstreamFailure where
  | connectFail
  | subscribeFail
  | recvFail
deriving DecidableEq

/-- Error message with which `connectAndListen` returns for each phase
failure. -/
def connectAndListenErr : UpstreamFailure → String
  | .connectFail => "failed to connect to WebSocket"
  | .subscribeFail => "failed to subscribe to logs"
  | .recvFail => "error receiving message"

/-- The constant `reconnectDelay` of `backend/stream.go`, in seconds. -/
def reconnectDelay : Nat := 2

/-- Observable history of the retry loop over a finite failure record:
how many cycles were started, the sleep taken after each failure, the
errors reported, and whether the loop ever reached a terminal state. -/
structure LoopTrace where
  attempts : Nat
  delays : List Nat
  errors : List String
  terminated : Bool
deriving DecidableEq

/-- listenToNewPairs from `backend/stream.go` over a finite record of
cycle failures: every failure is logged, followed by one fixed-delay
sleep, and the loop body repeats; no branch leaves the loop. -/
def listenToNewPairs : List UpstreamFailure → LoopTrace
  | [] => ⟨0, [], [], false⟩
  | f :: fs =>
    let t := listenToNewPairs fs
    ⟨t.attempts + 1, reconnectDelay :: t.delays,
      connectAndListenErr f :: t.errors, t.terminated⟩

/-! ### Helper lemmas on prefixes, appends and the binary readers. -/

theorem isPrefixOf_self_append {α : Type} [DecidableEq α] :
    ∀ (l t : List α), l.isPrefixOf (l ++ t) = true
  | [], _ => by simp [List.isPrefixOf]
  | a :: l, t => by
    simp [List.isPrefixOf, isPrefixOf_self_append l t]

theorem isPrefixOf_eq_true_iff {α : Type} [DecidableEq α] :
    ∀ (l m : List α), l.isPrefixOf m = true ↔ ∃ t, m = l ++ t
  | [], m => by simp [List.isPrefixOf]
  | a :: l, [] => by simp [List.isPrefixOf]
  | a :: l, b :: m => by
    simp [List.isPrefixOf, isPrefixOf_eq_true_iff l m, List.cons_eq_cons]
    aesop

theorem readU32_u32LE (n : Nat) (rest : Bytes) (h : n < 2 ^ 32) :
    readU32 (u32LE n ++ rest) = some (n, rest) := by
  simp only [u32LE, List.cons_append, List.nil_append, readU32]
  have hn : n % 256 + 256 * (n / 256 % 256) + 65536 * (n / 65536 % 256) +
      16777216 * (n / 16777216 % 256) = n := by omega
  rw [hn]

theorem readStr_borshStr (s rest : Bytes) (h : s.length < 2 ^ 32) :
    readStr (borshStr s ++ rest) = some (s, rest) := by
  have h1 : borshStr s ++ rest = u32LE s.length ++ (s ++ rest) := by
    simp [borshStr, List.append_assoc]
  rw [h1, readStr, readU32_u32LE _ _ h]
  simp [readBytesN, List.take_left, List.drop_left]

theorem decodeRawEvent_encode (e : RawEvent) (rest : Bytes) (hw : wfRawEvent e) :
    decodeRawEvent (borshEncodeRawEvent e ++ rest) = some e := by
  obtain ⟨h1, h2, h3, h4⟩ := hw
  have hsh : borshEncodeRawEvent e ++ rest =
      borshStr e.name ++ (borshStr e.symbol ++ (borshStr e.uri ++ (e.mint ++ rest))) := by
    simp [borshEncodeRawEvent, List.append_assoc]
  have hmint : readBytesN 32 (e.mint ++ rest) = some (e.mint, rest) := by
    rw [← h4]
    simp [readBytesN, List.take_left, List.drop_left]
  rw [hsh]
  simp [decodeRawEvent, readStr_borshStr _ _ h1, readStr_borshStr _ _ h2,
        readStr_borshStr _ _ h3, hmint]

theorem goSliceTo_append (l t : Bytes) : goSliceTo (l ++ t) l.length = some l := by
  simp [goSliceTo, List.take_left]

theorem goSliceFrom_append (l t : Bytes) : goSliceFrom (l ++ t) l.length = some t := by
  simp [goSliceFrom, List.drop_left]

theorem DecodeBase64RawEvent_encode (e : RawEvent) (hw : wfRawEvent e) :
    DecodeBase64RawEvent (creationDiscriminator ++ borshEncodeRawEvent e)
      creationDiscriminator = .ok e := by
  have hne : ¬ ((creationDiscriminator ++ borshEncodeRawEvent e).length <
      creationDiscriminator.length) := by
    simp
  rw [DecodeBase64RawEvent, if_neg hne, goSliceTo_append, goSliceFrom_append]
  have hdec : decodeRawEvent (borshEncodeRawEvent e) = some e := by
    have := decodeRawEvent_encode e [] hw
    simpa using this
  simp [hdec]

/-! ### Split and extraction lemmas. -/

theorem findPDOcc_nil : findPDOcc [] = none := by decide

theorem splitPDFuel_congr :
    ∀ (f1 f2 : Nat) (s acc : List Char), s.length ≤ f1 → s.length ≤ f2 →
      splitPDFuel f1 s acc = splitPDFuel f2 s acc := by
  intro f1
  induction f1 with
  | zero =>
    intro f2 s acc h1 h2
    have hs : s = [] := by cases s <;> simp_all
    subst hs
    cases f2 <;> simp [splitPDFuel]
  | succ f ih =>
    intro f2 s acc h1 h2
    cases s with
    | nil => cases f2 <;> simp [splitPDFuel]
    | cons c rest =>
      cases f2 with
      | zero => simp at h2
      | succ g =>
        simp only [splitPDFuel]
        have hr : rest.length ≤ f := by simp at h1; omega
        have hg : rest.length ≤ g := by simp at h2; omega
        by_cases hp : programDataPfx.isPrefixOf (c :: rest) = true
        · rw [if_pos hp, if_pos hp]
          have hd : (List.drop programDataPfx.length (c :: rest)).length ≤ rest.length := by
            simp [programDataPfx]
          rw [ih g (List.drop programDataPfx.length (c :: rest)) []
            (le_trans hd hr) (le_trans hd hg)]
        · rw [if_neg hp, if_neg hp]
          exact ih g rest (acc ++ [c]) hr hg

theorem splitPDFuel_of_no_occ :
    ∀ (f : Nat) (s acc : List Char), s.length ≤ f → findPDOcc s = none →
      splitPDFuel f s acc = [acc ++ s] := by
  intro f
  induction f with
  | zero =>
    intro s acc h1 _
    have hs : s = [] := by cases s <;> simp_all
    subst hs; rfl
  | succ f ih =>
    intro s acc h1 h2
    cases s with
    | nil => simp [splitPDFuel]
    | cons c rest =>
      simp only [findPDOcc] at h2
      by_cases hp : programDataPfx.isPrefixOf (c :: rest) = true
      · rw [if_pos hp] at h2; exact absurd h2 (by simp)
      · rw [if_neg hp] at h2
        simp only [splitPDFuel, if_neg hp]
        have hr : rest.length ≤ f := by simp at h1; omega
        have h2r : findPDOcc rest = none := by
          cases hx : findPDOcc rest <;> simp [hx] at h2 ⊢
        rw [ih rest (acc ++ [c]) hr h2r]
        simp

theorem splitPDFuel_of_occ :
    ∀ (f : Nat) (s acc : List Char) (i : Nat), s.length ≤ f → findPDOcc s = some i →
      splitPDFuel f s acc =
        (acc ++ s.take i) :: splitPD (s.drop (i + programDataPfx.length)) := by
  intro f
  induction f with
  | zero =>
    intro s acc i h1 h2
    have hs : s = [] := by cases s <;> simp_all
    subst hs; rw [findPDOcc_nil] at h2; exact absurd h2 (by simp)
  | succ f ih =>
    intro s acc i h1 h2
    cases s with
    | nil => rw [findPDOcc_nil] at h2; exact absurd h2 (by simp)
    | cons c rest =>
      simp only [findPDOcc] at h2
      by_cases hp : programDataPfx.isPrefixOf (c :: rest) = true
      · rw [if_pos hp] at h2
        have hi : i = 0 := by simp at h2; omega
        subst hi
        simp only [splitPDFuel, if_pos hp, List.take_zero, List.append_nil,
          Nat.zero_add]
        congr 1
        have hd : (List.drop programDataPfx.length (c :: rest)).length ≤ f := by
          simp [programDataPfx] at h1 ⊢; omega
        exact splitPDFuel_congr f (List.drop programDataPfx.length (c :: rest)).length
          (List.drop programDataPfx.length (c :: rest)) [] hd (le_refl _)
      · rw [if_neg hp] at h2
        obtain ⟨j, hj, rfl⟩ : ∃ j, findPDOcc rest = some j ∧ i = j + 1 := by
          cases hx : findPDOcc rest <;> simp [hx] at h2 ⊢
          omega
        have hr : rest.length ≤ f := by simp at h1; omega
        simp only [splitPDFuel, if_neg hp]
        rw [ih rest (acc ++ [c]) j hr hj]
        have hdrop : (c :: rest).drop (j + 1 + programDataPfx.length) =
            rest.drop (j + programDataPfx.length) := by
          have : j + 1 + programDataPfx.length = (j + programDataPfx.length) + 1 := by omega
          rw [this, List.drop_succ_cons]
        rw [hdrop]
        simp [List.take_succ_cons, List.append_assoc]

theorem splitPD_of_no_occ (s : List Char) (h : findPDOcc s = none) :
    splitPD s = [s] := by
  have := splitPDFuel_of_no_occ s.length s [] (le_refl _) h
  simpa [splitPD] using this

theorem splitPD_of_occ (s : List Char) (i : Nat) (h : findPDOcc s = some i) :
    splitPD s = s.take i :: splitPD (s.drop (i + programDataPfx.length)) := by
  have := splitPDFuel_of_occ s.length s [] i (le_refl _) h
  simpa [splitPD] using this

/-- Extraction agrees everywhere with the between-occurrences reading of
the spec. -/
theorem extract_eq_segment (log : List Char) :
    extractProgramData log =
      match specExtractSegment log with
      | none => .err "log does not contain program data"
      | some p => .ok p := by
  cases h : findPDOcc log with
  | none =>
    rw [extractProgramData, splitPD_of_no_occ log h]
    simp [specExtractSegment, h]
  | some i =>
    rw [extractProgramData, splitPD_of_occ log i h]
    cases h2 : findPDOcc (log.drop (i + programDataPfx.length)) with
    | none =>
      rw [splitPD_of_no_occ _ h2]
      simp [specExtractSegment, h, h2]
    | some j =>
      rw [splitPD_of_occ _ j h2]
      simp [specExtractSegment, h, h2]

/-- Containment of the program-data separator is exactly existence of a
first occurrence. -/
theorem strContains_pd_eq (s : List Char) :
    strContains s programDataPfx = (findPDOcc s).isSome := by
  induction s with
  | nil => decide
  | cons c rest ih =>
    simp only [strContains, findPDOcc]
    by_cases hp : programDataPfx.isPrefixOf (c :: rest) = true
    · simp [hp]
    · simp only [Bool.or_eq_true] at *
      simp [hp, ih]

/-! ### Error observation on results. -/

/-- Whether a result is an error return. -/
def GoResult.isErr {α : Type} : GoResult α → Bool
  | .err _ => true
  | _ => false

/-- DecodeBase64 on data that passed the HasPrefix check reduces to the
Borsh stage: both guards hold, so the outcome is decided by decoding the
payload after the discriminator. -/
theorem DecodeBase64_disc_cases (b : Bytes)
    (h : creationDiscriminator.isPrefixOf b = true) :
    DecodeBase64RawEvent b creationDiscriminator =
      match decodeRawEvent (b.drop creationDiscriminator.length) with
      | none => .err "failed to decode Borsh payload"
      | some e => .ok e := by
  obtain ⟨t, rfl⟩ := (isPrefixOf_eq_true_iff creationDiscriminator b).mp h
  rw [DecodeBase64RawEvent, if_neg (by simp), goSliceTo_append, goSliceFrom_append,
    List.drop_left]
  simp

/-- Spec wording of the error condition of processLog: the marker is
present and either the fixed prefix is absent, or the extracted payload
is not valid base64, or Borsh deserialization of a
discriminator-prefixed payload fails.  Written from the words of the
claim, to be compared against the source function. -/
def specProcessLogErr (log : List Char) : Bool :=
  strContains log logIdentifier &&
    (!(strContains log programDataPfx) ||
      (match extractProgramData log with
       | .ok d =>
         (match base64Decode d with
          | none => true
          | some b =>
            creationDiscriminator.isPrefixOf b &&
              (decodeRawEvent (b.drop creationDiscriminator.length)).isNone)
       | _ => false))

/-- C3: processLog errs exactly under the spec error condition; a line
without the marker yields no error and no event, and a marked line whose
decoded bytes lack the discriminator is silently discarded. -/
theorem processLog_error_iff_c3 (log : List Char) :
    (processLog log).isErr = specProcessLogErr log ∧
    (strContains log logIdentifier = false → processLog log = .ok []) ∧
    (∀ d b, strContains log logIdentifier = true →
      extractProgramData log = .ok d → base64Decode d = some b →
      creationDiscriminator.isPrefixOf b = false → processLog log = .ok []) := by
  refine ⟨?_, fun hm => by simp [processLog, hm], ?_⟩
  · by_cases hm : strContains log logIdentifier = true
    · cases hf : findPDOcc log with
      | none =>
        have hex : extractProgramData log = .err "log does not contain program data" := by
          rw [extract_eq_segment]; simp [specExtractSegment, hf]
        have hpd : strContains log programDataPfx = false := by
          rw [strContains_pd_eq, hf]; rfl
        simp [processLog, hm, hex, specProcessLogErr, hpd, GoResult.isErr]
      | some i =>
        obtain ⟨p, hp⟩ : ∃ p, specExtractSegment log = some p := by
          simp [specExtractSegment, hf]
        have hex : extractProgramData log = .ok p := by
          rw [extract_eq_segment, hp]
        have hpd : strContains log programDataPfx = true := by
          rw [strContains_pd_eq, hf]; rfl
        cases hb : base64Decode p with
        | none =>
          simp [processLog, hm, hex, hb, specProcessLogErr, hpd, GoResult.isErr]
        | some b =>
          cases hpre : creationDiscriminator.isPrefixOf b with
          | false =>
            simp [processLog, hm, hex, hb, hpre, specProcessLogErr, hpd,
              GoResult.isErr]
          | true =>
            have hDB := DecodeBase64_disc_cases b hpre
            cases hd : decodeRawEvent (b.drop creationDiscriminator.length) with
            | none =>
              simp [processLog, hm, hex, hb, hpre, hDB, hd, specProcessLogErr,
                hpd, GoResult.isErr]
            | some ev =>
              simp [processLog, hm, hex, hb, hpre, hDB, hd, specProcessLogErr,
                hpd, GoResult.isErr]
    · have hm' : strContains log logIdentifier = false := by simpa using hm
      simp [processLog, hm', specProcessLogErr, GoResult.isErr]
  · intro d b hm hx hb hpre
    simp [processLog, hm, hx, hb, hpre]

/-- Concrete marked line with valid base64 and a non-creation
discriminator, for the C3 witness. -/
def c3Log : List Char := "G3KpTd7r Program data: AAAA".data

set_option maxRecDepth 100000 in
/-- Witness for C3: a line without the marker is ignored without error,
and a marked line whose payload lacks the discriminator is silently
discarded. -/
theorem processLog_error_iff_c3_witness :
    processLog ("hello there".data) = .ok [] ∧ processLog c3Log = .ok [] :=
  ⟨(processLog_error_iff_c3 ("hello there".data)).2.1 (by decide),
   (processLog_error_iff_c3 c3Log).2.2 ("AAAA".data) [0, 0, 0] (by decide)
     (by decide) (by decide) (by decide)⟩

/-- C1: a marked line whose extracted payload base64-decodes to the
creation discriminator followed by a well-formed Borsh record produces
exactly one CreateEvent whose text fields equal the encoded fields and
whose mint is the base58 rendering of the encoded key. -/
theorem processLog_valid_payload_c1 (log d : List Char) (e : RawEvent)
    (hm : strContains log logIdentifier = true)
    (hx : extractProgramData log = .ok d)
    (hb : base64Decode d = some (creationDiscriminator ++ borshEncodeRawEvent e))
    (hw : wfRawEvent e) :
    processLog log =
      .ok [{ name := e.name, symbol := e.symbol, uri := e.uri,
             mint := base58Encode e.mint }] := by
  simp [processLog, hm, hx, hb, isPrefixOf_self_append,
    DecodeBase64RawEvent_encode e hw]

/-- Concrete log line for the C1 witness. -/
def c1Log : List Char :=
  "Program log: something G3KpTd7r Program data: G3KpTd7rY3YDAAAARm9vAwAAAEZPTwgAAABpcGZzOi8veAAAAAAAAAAAAAAAAAAAAAAAAAAAAAAAAAAAAAAAAAAA".data

/-- Payload text of `c1Log` after the prefix. -/
def c1Data : List Char :=
  "G3KpTd7rY3YDAAAARm9vAwAAAEZPTwgAAABpcGZzOi8veAAAAAAAAAAAAAAAAAAAAAAAAAAAAAAAAAAAAAAAAAAA".data

/-- Record encoded in `c1Data`: name Foo, symbol FOO, uri ipfs://x, mint
of 32 zero bytes. -/
def c1Event : RawEvent :=
  ⟨[70, 111, 111], [70, 79, 79], [105, 112, 102, 115, 58, 47, 47, 120],
    List.replicate 32 0⟩

set_option maxRecDepth 400000 in
/-- Witness for C1 at `c1Log`, with the base58 rendering evaluated. -/
theorem processLog_valid_payload_c1_witness :
    base58Encode c1Event.mint = "11111111111111111111111111111111" ∧
    processLog c1Log =
      .ok [{ name := c1Event.name, symbol := c1Event.symbol, uri := c1Event.uri,
             mint := base58Encode c1Event.mint }] :=
  ⟨by decide,
   processLog_valid_payload_c1 c1Log c1Data c1Event (by decide) (by decide)
     (by decide) ⟨by decide, by decide, by decide, by decide⟩⟩

/-- C2: encoding a record with the upstream layout and decoding the
result through DecodeBase64 with the creation discriminator yields the
identical record. -/
theorem borsh_encode_decode_roundtrip_c2 (e : RawEvent) (hw : wfRawEvent e) :
    DecodeBase64RawEvent (creationDiscriminator ++ borshEncodeRawEvent e)
      creationDiscriminator = .ok e :=
  DecodeBase64RawEvent_encode e hw

/-- Record with a non-trivial mint for the C2 witness. -/
def c2Event : RawEvent :=
  ⟨[65], [66, 67], [117, 114, 105], (List.range 32).map (fun k => k + 1)⟩

set_option maxRecDepth 100000 in
/-- Witness for C2 at a concrete record. -/
theorem borsh_encode_decode_roundtrip_c2_witness :
    DecodeBase64RawEvent (creationDiscriminator ++ borshEncodeRawEvent c2Event)
      creationDiscriminator = .ok c2Event :=
  borsh_encode_decode_roundtrip_c2 c2Event ⟨by decide, by decide, by decide, by decide⟩

/-- Line in which the prefix occurs twice, for the C4 counterexample. -/
def c4Log : List Char := "xProgram data: AProgram data: B".data

set_option maxRecDepth 100000 in
/-- Counterexample to C4 as stated: on a line where the prefix occurs
twice, the extraction yields only the segment up to the second
occurrence, not the entire remainder after the first occurrence. -/
theorem extract_after_first_c4_counterexample :
    strContains c4Log programDataPfx = true ∧
    specExtractAll c4Log = some ("AProgram data: B".data) ∧
    extractProgramData c4Log = .ok ("A".data) ∧
    ("A".data : List Char) ≠ "AProgram data: B".data := by
  refine ⟨by decide, by decide, by decide, by decide⟩

/-- C4 (amended): the extracted payload is the segment strictly between
the first occurrence of the prefix and the following occurrence or the
end of the line; when the prefix is absent the extraction errors. -/
theorem extract_between_occ_c4 (log : List Char) :
    extractProgramData log =
      match specExtractSegment log with
      | none => GoResult.err "log does not contain program data"
      | some p => GoResult.ok p :=
  extract_eq_segment log

/-- C10: DecodeBase64 never panics — every slice it takes is in bounds —
and both guard failures are error returns: short data, and a
discriminator mismatch. -/
theorem decodeBase64_total_c10 (data disc : Bytes) :
    DecodeBase64RawEvent data disc ≠ .crash ∧
    (data.length < disc.length →
      DecodeBase64RawEvent data disc = .err "data too short for discriminator") ∧
    (disc.length ≤ data.length → data.take disc.length ≠ disc →
      DecodeBase64RawEvent data disc = .err "invalid discriminator") := by
  by_cases h1 : data.length < disc.length
  · refine ⟨by simp [DecodeBase64RawEvent, h1], fun _ => by simp [DecodeBase64RawEvent, h1],
      fun h2 _ => absurd h1 (by omega)⟩
  · have h2 : disc.length ≤ data.length := by omega
    have hTo : goSliceTo data disc.length = some (data.take disc.length) := by
      simp [goSliceTo, h2]
    have hFrom : goSliceFrom data disc.length = some (data.drop disc.length) := by
      simp [goSliceFrom, h2]
    by_cases h3 : data.take disc.length = disc
    · have hred : DecodeBase64RawEvent data disc =
          match decodeRawEvent (data.drop disc.length) with
          | none => .err "failed to decode Borsh payload"
          | some e => .ok e := by
        rw [DecodeBase64RawEvent, if_neg h1, hTo]
        simp [h3, hFrom]
      refine ⟨?_, fun hc => absurd hc h1, fun _ hc => absurd h3 hc⟩
      rw [hred]
      cases hd : decodeRawEvent (data.drop disc.length) <;> simp
    · have hred : DecodeBase64RawEvent data disc = .err "invalid discriminator" := by
        rw [DecodeBase64RawEvent, if_neg h1, hTo]
        simp [h3]
      exact ⟨by rw [hred]; simp, fun hc => absurd hc h1, fun _ _ => hred⟩

/-- Witness for C10: a short input and a mismatching discriminator both
return error values. -/
theorem decodeBase64_total_c10_witness :
    DecodeBase64RawEvent [1, 2] creationDiscriminator =
      .err "data too short for discriminator" ∧
    DecodeBase64RawEvent [9, 9, 9, 9, 9, 9, 9, 9] creationDiscriminator =
      .err "invalid discriminator" :=
  ⟨(decodeBase64_total_c10 [1, 2] creationDiscriminator).2.1 (by decide),
   (decodeBase64_total_c10 [9, 9, 9, 9, 9, 9, 9, 9] creationDiscriminator).2.2
     (by decide) (by decide)⟩

/-! ### Registry lemmas. -/

/-- Keys of the registry. -/
def keysR (reg : Registry) : List String := reg.map Prod.fst

theorem lookupR_storeR_self (id : String) (gen : Nat) :
    ∀ reg : Registry, lookupR id (storeR id gen reg) = some gen
  | [] => by simp [storeR, lookupR]
  | (i, g) :: rest => by
    by_cases h : i = id
    · simp [storeR, h, lookupR]
    · simp [storeR, h, lookupR, lookupR_storeR_self id gen rest]

theorem lookupR_storeR_ne (j id : String) (gen : Nat) (h : j ≠ id) :
    ∀ reg : Registry, lookupR j (storeR id gen reg) = lookupR j reg
  | [] => by simp [storeR, lookupR, Ne.symm h]
  | (i, g) :: rest => by
    by_cases hi : i = id
    · subst hi
      simp [storeR, lookupR, Ne.symm h]
    · by_cases hj : i = j
      · simp [storeR, hi, lookupR, hj, h]
      · simp [storeR, hi, lookupR, hj, lookupR_storeR_ne j id gen h rest]

theorem lookupR_removeR_ne (j id : String) (h : j ≠ id) :
    ∀ reg : Registry, lookupR j (removeR id reg) = lookupR j reg
  | [] => by simp [removeR, lookupR]
  | (i, g) :: rest => by
    by_cases hi : i = id
    · subst hi
      simp [removeR, lookupR, Ne.symm h]
    · by_cases hj : i = j
      · simp [removeR, hi, lookupR, hj, h]
      · simp [removeR, hi, lookupR, hj, lookupR_removeR_ne j id h rest]

theorem keysR_cons (i : String) (g : Nat) (rest : Registry) :
    keysR ((i, g) :: rest) = i :: keysR rest := rfl

theorem mem_keysR_storeR (j id : String) (gen : Nat) :
    ∀ reg : Registry, j ∈ keysR (storeR id gen reg) ↔ j = id ∨ j ∈ keysR reg
  | [] => by simp [storeR, keysR]
  | (i, g) :: rest => by
    by_cases hi : i = id
    · subst hi
      rw [storeR, if_pos rfl, keysR_cons, keysR_cons]
      simp only [List.mem_cons]
      tauto
    · rw [storeR, if_neg hi, keysR_cons, keysR_cons]
      simp only [List.mem_cons]
      rw [mem_keysR_storeR j id gen rest]
      tauto

theorem mem_keysR_removeR (j id : String) :
    ∀ reg : Registry, j ∈ keysR (removeR id reg) → j ∈ keysR reg
  | [] => by simp [removeR]
  | (i, g) :: rest => by
    by_cases hi : i = id
    · subst hi
      rw [removeR, if_pos rfl, keysR_cons]
      simp only [List.mem_cons]
      tauto
    · rw [removeR, if_neg hi, keysR_cons, keysR_cons]
      simp only [List.mem_cons]
      intro h
      cases h with
      | inl h => exact Or.inl h
      | inr h => exact Or.inr (mem_keysR_removeR j id rest h)

theorem nodup_keysR_storeR (id : String) (gen : Nat) :
    ∀ reg : Registry, (keysR reg).Nodup → (keysR (storeR id gen reg)).Nodup
  | [] => by simp [storeR, keysR]
  | (i, g) :: rest => by
    intro h
    by_cases hi : i = id
    · subst hi
      rw [storeR, if_pos rfl, keysR_cons]
      rw [keysR_cons] at h
      exact h
    · rw [storeR, if_neg hi, keysR_cons]
      rw [keysR_cons] at h
      rw [List.nodup_cons] at h ⊢
      refine ⟨fun hmem => ?_, nodup_keysR_storeR id gen rest h.2⟩
      rcases (mem_keysR_storeR i id gen rest).mp hmem with h1 | h1
      · exact hi h1
      · exact h.1 h1

theorem nodup_keysR_removeR (id : String) :
    ∀ reg : Registry, (keysR reg).Nodup → (keysR (removeR id reg)).Nodup
  | [] => by simp [removeR]
  | (i, g) :: rest => by
    intro h
    by_cases hi : i = id
    · subst hi
      rw [removeR, if_pos rfl]
      rw [keysR_cons, List.nodup_cons] at h
      exact h.2
    · rw [removeR, if_neg hi, keysR_cons]
      rw [keysR_cons] at h
      rw [List.nodup_cons] at h ⊢
      exact ⟨fun hmem => h.1 (mem_keysR_removeR i id rest hmem),
        nodup_keysR_removeR id rest h.2⟩

theorem length_storeR_mem (id : String) (gen : Nat) :
    ∀ reg : Registry, lookupR id reg ≠ none → (storeR id gen reg).length = reg.length
  | [] => by simp [lookupR]
  | (i, g) :: rest => by
    intro h
    by_cases hi : i = id
    · simp [storeR, hi]
    · simp [lookupR, hi] at h
      simp [storeR, hi, length_storeR_mem id gen rest h]

theorem nodup_keysR_stepReg (reg : Registry) (ev : NetEvent)
    (h : (keysR reg).Nodup) : (keysR (stepReg reg ev)).Nodup := by
  cases ev with
  | connect i g => exact nodup_keysR_storeR i g reg h
  | frame i g msg => simpa [stepReg, step] using h
  | readError i g => exact nodup_keysR_removeR i reg h

theorem nodup_keysR_foldl :
    ∀ (evs : List NetEvent) (reg : Registry), (keysR reg).Nodup →
      (keysR (evs.foldl stepReg reg)).Nodup
  | [], _, h => h
  | ev :: evs, reg, h =>
    nodup_keysR_foldl evs (stepReg reg ev) (nodup_keysR_stepReg reg ev h)

theorem lookupR_foldl_untouched (id : String) :
    ∀ (evs : List NetEvent) (reg : Registry),
      (∀ ev ∈ evs, (∀ g, ev ≠ NetEvent.connect id g) ∧
        (∀ g, ev ≠ NetEvent.readError id g)) →
      lookupR id (evs.foldl stepReg reg) = lookupR id reg
  | [], _, _ => rfl
  | ev :: evs, reg, h => by
    have h1 := h ev (by simp)
    have h2 : ∀ e ∈ evs, (∀ g, e ≠ NetEvent.connect id g) ∧
        (∀ g, e ≠ NetEvent.readError id g) :=
      fun e he => h e (by simp [he])
    rw [List.foldl_cons, lookupR_foldl_untouched id evs (stepReg reg ev) h2]
    cases ev with
    | connect i g =>
      have hne : id ≠ i := fun hi => (h1.1 g) (by rw [hi])
      simp [stepReg, step, lookupR_storeR_ne id i g hne]
    | frame i g msg => simp [stepReg, step]
    | readError i g =>
      have hne : id ≠ i := fun hi => (h1.2 g) (by rw [hi])
      simp [stepReg, step, lookupR_removeR_ne id i hne]

/-! ### Claims on the retry loop, the read loop, the broadcaster and the
registry lifetime. -/

theorem listenToNewPairs_spec :
    ∀ fs : List UpstreamFailure,
      listenToNewPairs fs =
        ⟨fs.length, List.replicate fs.length reconnectDelay,
          fs.map connectAndListenErr, false⟩
  | [] => rfl
  | f :: fs => by
    simp [listenToNewPairs, listenToNewPairs_spec fs, List.replicate_succ]

/-- C5: the retry loop never terminates, a connect failure followed by
any further failures produces one reconnect attempt per failure with the
constant delay after each, and every failure record of length N + 1
yields exactly N + 1 attempts, unboundedly. -/
theorem reconnect_loop_c5 (fs : List UpstreamFailure) :
    (listenToNewPairs (.connectFail :: fs)).attempts = fs.length + 1 ∧
    (listenToNewPairs (.connectFail :: fs)).delays =
      List.replicate (fs.length + 1) reconnectDelay ∧
    (∀ gs : List UpstreamFailure, (listenToNewPairs gs).terminated = false ∧
      (listenToNewPairs gs).attempts = gs.length) := by
  refine ⟨?_, ?_, fun gs => ⟨?_, ?_⟩⟩ <;> simp [listenToNewPairs_spec]

/-- C6: a frame containing the ping keyword triggers exactly one write
of the literal pong JSON to that client and leaves the registry
unchanged; any other frame triggers nothing. -/
theorem ping_pong_c6 (reg : Registry) (id : String) (gen : Nat) (msg : List Char) :
    (strContains msg pingMessage = true →
      step reg (.frame id gen msg) =
        (reg, [⟨id, gen, ("\x7b\"message\":\"pong\"\x7d" : String).data⟩])) ∧
    (strContains msg pingMessage = false →
      step reg (.frame id gen msg) = (reg, [])) := by
  constructor <;> intro h <;> simp [step, h, pongResponse]

/-- Witness for C6 at a ping-bearing frame and at a silent frame. -/
theorem ping_pong_c6_witness :
    step [("a", 1)] (.frame "a" 1 "please ping me".data) =
      ([("a", 1)], [⟨"a", 1, ("\x7b\"message\":\"pong\"\x7d" : String).data⟩]) ∧
    step [("a", 1)] (.frame "a" 1 "hello".data) = ([("a", 1)], []) :=
  ⟨(ping_pong_c6 [("a", 1)] "a" 1 "please ping me".data).1 (by decide),
   (ping_pong_c6 [("a", 1)] "a" 1 "hello".data).2 (by decide)⟩

/-- C7: a broadcast attempts one delivery per snapshot entry (also for
the empty snapshot), every attempted payload is the same byte string,
the attempted targets are exactly the snapshot, the attempts do not
depend on the write outcomes at all, and changing the outcome of one
client changes no other entry of the outcome list. -/
theorem broadcast_fanout_c7 (message : List Char) (reg : Registry)
    (writeOk writeOk2 : String → Nat → Bool) (cid : String) (cg : Nat) :
    (sendMessageToAllClients message reg).length = reg.length ∧
    (∀ d ∈ sendMessageToAllClients message reg, d.payload = message) ∧
    (sendMessageToAllClients message reg).map (fun d => (d.id, d.gen)) = reg ∧
    (broadcastOutcomes message reg writeOk).map Prod.fst =
      sendMessageToAllClients message reg ∧
    ((∀ i g, ¬(i = cid ∧ g = cg) → writeOk i g = writeOk2 i g) →
      List.Forall₂ (fun p q : Delivery × Bool =>
          p.1 = q.1 ∧ (¬(p.1.id = cid ∧ p.1.gen = cg) → p = q))
        (broadcastOutcomes message reg writeOk)
        (broadcastOutcomes message reg writeOk2)) := by
  refine ⟨by simp [sendMessageToAllClients], ?_, ?_, ?_, ?_⟩
  · intro d hd
    obtain ⟨c, _, rfl⟩ := List.mem_map.mp hd
    rfl
  · induction reg with
    | nil => rfl
    | cons c rest ih =>
      simp only [sendMessageToAllClients, List.map_cons, List.map_map] at ih ⊢
      rw [ih]
  · have : (Prod.fst ∘ fun d : Delivery => (d, writeOk d.id d.gen)) = id := rfl
    rw [broadcastOutcomes, List.map_map, this, List.map_id]
  · intro hagree
    induction reg with
    | nil =>
      simp [broadcastOutcomes, sendMessageToAllClients]
    | cons c rest ih =>
      simp only [broadcastOutcomes, sendMessageToAllClients, List.map_cons,
        List.map_map] at ih ⊢
      refine List.forall₂_cons.mpr ⟨⟨rfl, fun hne => ?_⟩, ih⟩
      have := hagree c.1 c.2 hne
      simp [this]

/-- Witness for C7 on a two-client snapshot with outcome oracles that
agree except at one client. -/
theorem broadcast_fanout_c7_witness :
    (sendMessageToAllClients ['m'] [("a", 1), ("b", 2)]).length = 2 ∧
    List.Forall₂ (fun p q : Delivery × Bool =>
        p.1 = q.1 ∧ (¬(p.1.id = "a" ∧ p.1.gen = 1) → p = q))
      (broadcastOutcomes ['m'] [("a", 1), ("b", 2)] (fun _ _ => true))
      (broadcastOutcomes ['m'] [("a", 1), ("b", 2)]
        (fun i g => !(i = "a" && g = 1))) :=
  ⟨(broadcast_fanout_c7 ['m'] [("a", 1), ("b", 2)] (fun _ _ => true)
      (fun i g => !(i = "a" && g = 1)) "a" 1).1,
   (broadcast_fanout_c7 ['m'] [("a", 1), ("b", 2)] (fun _ _ => true)
      (fun i g => !(i = "a" && g = 1)) "a" 1).2.2.2.2
     (by
       intro i g hne
       by_cases hi : i = "a"
       · subst hi
         have hg : ¬ g = 1 := fun hg => hne ⟨rfl, hg⟩
         simp [hg]
       · simp [hi])⟩

/-- C8: a broadcast never changes the registry, in particular a failing
write leaves the failing client stored, and the only event that makes a
present id disappear from the registry is a read error for that id. -/
theorem delivery_failure_keeps_registry_c8 :
    (∀ (reg : Registry) (message : List Char) (writeOk : String → Nat → Bool),
      (broadcastStep reg message writeOk).1 = reg) ∧
    (∀ (reg : Registry) (message : List Char) (writeOk : String → Nat → Bool)
      (cid : String) (cg : Nat), writeOk cid cg = false →
      lookupR cid (broadcastStep reg message writeOk).1 = lookupR cid reg) ∧
    (∀ (reg : Registry) (ev : NetEvent) (id : String),
      lookupR id reg ≠ none → lookupR id (stepReg reg ev) = none →
      ∃ gen, ev = NetEvent.readError id gen) := by
  refine ⟨fun _ _ _ => rfl, fun _ _ _ _ _ _ => rfl, ?_⟩
  intro reg ev id h1 h2
  cases ev with
  | connect i g =>
    by_cases hi : id = i
    · subst hi
      rw [stepReg, step, lookupR_storeR_self id g reg] at h2
      exact absurd h2 (by simp)
    · rw [stepReg, step, lookupR_storeR_ne id i g hi reg] at h2
      exact absurd h2 h1
  | frame i g msg => exact absurd h2 h1
  | readError i g =>
    by_cases hi : id = i
    · subst hi
      exact ⟨g, rfl⟩
    · rw [stepReg, step, lookupR_removeR_ne id i hi reg] at h2
      exact absurd h2 h1

/-- Witness for C8: a broadcast whose every write fails keeps the only
client stored, and a concrete removal event is a read error. -/
theorem delivery_failure_keeps_registry_c8_witness :
    (broadcastStep [("a", 1)] ['m'] (fun _ _ => false)).1 = [("a", 1)] ∧
    lookupR "a" (broadcastStep [("a", 1)] ['m'] (fun _ _ => false)).1 =
      lookupR "a" [("a", 1)] ∧
    ∃ gen, NetEvent.readError "a" 3 = NetEvent.readError "a" gen :=
  ⟨delivery_failure_keeps_registry_c8.1 [("a", 1)] ['m'] (fun _ _ => false),
   delivery_failure_keeps_registry_c8.2.1 [("a", 1)] ['m'] (fun _ _ => false)
     "a" 1 rfl,
   delivery_failure_keeps_registry_c8.2.2 [("a", 1)] (.readError "a" 3) "a"
     (by decide) (by decide)⟩

/-- Claim C9 as stated, as a property of one event trace: a client
connected at position i stays visible under its id through position j
provided no read error of that same connection and no replacing connect
for the id lies in between. -/
def presentUntilOwnReadError (tr : List NetEvent) : Prop :=
  ∀ i j id gen, i ≤ j → j < tr.length →
    tr.get? i = some (NetEvent.connect id gen) →
    (∀ k, i < k → k ≤ j →
      tr.get? k ≠ some (NetEvent.readError id gen) ∧
      ∀ g, g ≠ gen → tr.get? k ≠ some (NetEvent.connect id g)) →
    lookupR id (runTrace (tr.take (j + 1))) = some gen

/-- Trace in which a second connection reuses the id of the first and
the first connection then hits its read error. -/
def c9Trace : List NetEvent :=
  [.connect "a" 1, .connect "a" 2, .readError "a" 1]

/-- Counterexample to C9 as stated: after a same-id replacement, the
read error of the replaced connection deletes the id and with it the
new client, which never had a read error of its own. -/
theorem registry_interval_c9_counterexample :
    ¬ presentUntilOwnReadError c9Trace := by
  intro h
  have hk : ∀ k, 1 < k → k ≤ 2 →
      c9Trace.get? k ≠ some (NetEvent.readError "a" 2) ∧
      ∀ g, g ≠ 2 → c9Trace.get? k ≠ some (NetEvent.connect "a" g) := by
    intro k h1 h2
    have hk2 : k = 2 := by omega
    subst hk2
    exact ⟨by decide, fun g _ => by simp [c9Trace]⟩
  have hfin := h 1 2 "a" 2 (by omega) (by decide) (by decide) hk
  exact absurd hfin (by decide)

/-- C9 (amended): a client stays visible under its id from its connect
until the first read error under that id — after a same-id replacement
this may be the replaced connection's read error — or until a further
same-id connect; registry keys are always unique; and a same-id connect
replaces the entry in place, preserving the registry size. -/
theorem registry_interval_c9_amended :
    (∀ (tr : List NetEvent) (i j : Nat) (id : String) (gen : Nat),
      i ≤ j → j < tr.length →
      tr.get? i = some (NetEvent.connect id gen) →
      (∀ k, i < k → k ≤ j →
        (∀ g, tr.get? k ≠ some (NetEvent.readError id g)) ∧
        (∀ g, tr.get? k ≠ some (NetEvent.connect id g))) →
      lookupR id (runTrace (tr.take (j + 1))) = some gen) ∧
    (∀ tr : List NetEvent, (keysR (runTrace tr)).Nodup) ∧
    (∀ (reg : Registry) (id : String) (gen gen0 : Nat),
      lookupR id reg = some gen0 →
      lookupR id (storeR id gen reg) = some gen ∧
      (storeR id gen reg).length = reg.length) := by
  refine ⟨?_, ?_, ?_⟩
  · intro tr i j id gen hij hjlen hconn hseg
    have hsplit : tr.take (j + 1) =
        tr.take (i + 1) ++ (tr.drop (i + 1)).take (j - i) := by
      rw [← List.take_add]
      congr 1
      omega
    have htake : tr.take (i + 1) = tr.take i ++ [NetEvent.connect id gen] := by
      rw [List.take_succ, ← List.get?_eq_getElem?, hconn]
      rfl
    have hseg2 : ∀ ev ∈ (tr.drop (i + 1)).take (j - i),
        (∀ g, ev ≠ NetEvent.connect id g) ∧
        (∀ g, ev ≠ NetEvent.readError id g) := by
      intro ev hev
      obtain ⟨m, hm⟩ := List.mem_iff_get?.mp hev
      rw [List.get?_eq_getElem?, List.getElem?_take] at hm
      by_cases hlt : m < j - i
      · rw [if_pos hlt, List.getElem?_drop] at hm
        have hk := hseg (i + 1 + m) (by omega) (by omega)
        rw [List.get?_eq_getElem?] at hk
        constructor
        · intro g hg
          exact hk.2 g (by rw [hm, hg])
        · intro g hg
          exact hk.1 g (by rw [hm, hg])
      · rw [if_neg hlt] at hm
        exact absurd hm (by simp)
    rw [hsplit, runTrace, List.foldl_append, htake, List.foldl_append]
    rw [lookupR_foldl_untouched id ((tr.drop (i + 1)).take (j - i)) _ hseg2]
    exact lookupR_storeR_self id gen _
  · intro tr
    exact nodup_keysR_foldl tr [] (by simp [keysR])
  · intro reg id gen gen0 h
    exact ⟨lookupR_storeR_self id gen reg,
      length_storeR_mem id gen reg (by simp [h])⟩

/-- Witness for the amended C9 on a concrete trace, a concrete key set
and a concrete replacement. -/
theorem registry_interval_c9_amended_witness :
    lookupR "a" (runTrace (([NetEvent.connect "a" 5,
        NetEvent.frame "a" 5 ['x']]).take (1 + 1))) = some 5 ∧
    (keysR (runTrace [NetEvent.connect "a" 5, NetEvent.connect "b" 6])).Nodup ∧
    (lookupR "a" (storeR "a" 7 [("a", 5)]) = some 7 ∧
      (storeR "a" 7 [("a", 5)]).length = [("a", 5)].length) :=
  ⟨registry_interval_c9_amended.1 [.connect "a" 5, .frame "a" 5 ['x']] 0 1 "a" 5
     (by omega) (by decide) (by decide)
     (by
       intro k h1 h2
       have hk : k = 1 := by omega
       subst hk
       exact ⟨fun g => by simp, fun g => by simp⟩),
   registry_interval_c9_amended.2.1 [NetEvent.connect "a" 5, NetEvent.connect "b" 6],
   registry_interval_c9_amended.2.2 [("a", 5)] "a" 7 5 (by decide)⟩
